import Mathlib

/-!
Verification development for the xcp repository: a shallow embedding of the
locator parser (internal/github/url.go) and of the zip download / extraction
engine (internal/downloader/downloader.go), together with theorems settling
the behavioural claims about them.

Modelling conventions:
- Go strings are modelled as Lean `String`; where convenient the character
  list `String.data` is manipulated directly.
- The filesystem path conventions are those of a Unix system: the path
  separator `os.PathSeparator` is the character of code 47 and
  `filepath.ToSlash` is the identity.
- The filesystem is modelled as an association list from paths to nodes;
  operating-system level I/O failures (permissions, full disk, ...) are not
  modelled: `os.MkdirAll` and file writing are total functions on that state.
- Machine integers (HTTP status codes, counters) are modelled as `Nat`;
  no overflow is reachable in the embedded code.
-/

deriving instance DecidableEq for Except

namespace Xcp

/-- Model of Go `strings.Index(s, c)` for a one-character separator, returned
in split form: `none` when `c` does not occur in `s`, otherwise
`some (before, after)` where `s = before ++ c :: after` and `before` is free
of `c`. -/
def splitOnceChar (c : Char) : List Char → Option (List Char × List Char)
  | [] => none
  | x :: xs =>
    if x = c then some ([], xs)
    else
      match splitOnceChar c xs with
      | none => none
      | some (a, b) => some (x :: a, b)

/-- Model of Go `strings.SplitN(s, sep, n)` for a one-character separator and
`n ≥ 1`: at most `n` parts, the last part holding the unsplit remainder. -/
def splitNChar (c : Char) : Nat → List Char → List (List Char)
  | 0, _ => []
  | 1, s => [s]
  | n + 2, s =>
    match splitOnceChar c s with
    | none => [s]
    | some (a, b) => a :: splitNChar c (n + 1) b

/-- Model of Go `strings.HasPrefix(s, pre)`. -/
def hasPrefixStr (s pre : String) : Bool :=
  pre.data.isPrefixOf s.data

/-- Model of Go `strings.TrimPrefix(s, pre)`. -/
def trimPrefixStr (s pre : String) : String :=
  if hasPrefixStr s pre then ⟨s.data.drop pre.data.length⟩ else s

/-- ParsedURL from internal/github/url.go: a fully parsed locator. -/
structure ParsedURL where
  owner : String
  repo : String
  path : String
  ref : String
deriving DecidableEq, Repr

/-- The parse-time error values of internal/github/url.go:
`ErrInvalidURL`, `ErrMissingOwner`, `ErrMissingRepo`. -/
inductive URLError where
  | invalidURL
  | missingOwner
  | missingRepo
deriving DecidableEq, Repr

/-- The owner/repo/path split and emptiness checks at the end of
`ParseGitHubURLWithRef` (url.go lines 87-118): split `ownerRepoPart` on
the separator at most three ways, demand at least two tokens, demand a
non-empty owner and repo, and default an empty ref to "main". -/
def parseOwnerRepoPath (ownerRepoPart refPart : List Char) : Except URLError ParsedURL :=
  let parts := splitNChar '/' 3 ownerRepoPart
  if parts.length < 2 then .error .invalidURL
  else
    let owner := parts.headD []
    let repo := (parts.drop 1).headD []
    let path := (parts.drop 2).headD []
    if owner = [] then .error .missingOwner
    else if repo = [] then .error .missingRepo
    else
      .ok ⟨⟨owner⟩, ⟨repo⟩, ⟨path⟩, ⟨if refPart = [] then "main".data else refPart⟩⟩

/-- The `@`-handling of `ParseGitHubURLWithRef` (url.go lines 64-85) followed
by `parseOwnerRepoPath`: split off an optional `@ref` suffix, and when the
reference segment itself contains a separator, move everything from that
separator on back onto the owner/repo segment. -/
def parseRest (urlPart : List Char) : Except URLError ParsedURL :=
  let pr : List Char × List Char :=
    match splitOnceChar '@' urlPart with
    | none => (urlPart, "main".data)
    | some (ownerRepoPart, refPart) =>
      match splitOnceChar '/' refPart with
      | none => (ownerRepoPart, refPart)
      | some (r, pathAfterRef) => (ownerRepoPart ++ '/' :: pathAfterRef, r)
  parseOwnerRepoPath pr.1 pr.2

/-- `ParseGitHubURLWithRef` from internal/github/url.go on the character
list of the input: reject inputs without the "github:" scheme, strip the
scheme, and parse the remainder. -/
def parseCore (url : List Char) : Except URLError ParsedURL :=
  if "github:".data.isPrefixOf url then
    parseRest (url.drop "github:".data.length)
  else .error .invalidURL

/-- `ParseGitHubURLWithRef` from internal/github/url.go. -/
def ParseGitHubURLWithRef (url : String) : Except URLError ParsedURL :=
  parseCore url.data

/-- `ParsedURL.ZipURL` from internal/github/url.go. -/
def ParsedURL.ZipURL (p : ParsedURL) : String :=
  "https://github.com/" ++ p.owner ++ "/" ++ p.repo ++ "/archive/" ++ p.ref ++ ".zip"

example : ParseGitHubURLWithRef "github:twilson63/qa" = .ok ⟨"twilson63", "qa", "", "main"⟩ := by decide

example : ParseGitHubURLWithRef "github:a/b/p@q@r" = .ok ⟨"a", "b", "p", "q@r"⟩ := by decide

example : ParseGitHubURLWithRef "github:a/b@r/p@q" = .ok ⟨"a", "b", "p@q", "r"⟩ := by decide

example : ParseGitHubURLWithRef "github:onlyowner" = .error .invalidURL := by decide

/-- The DownloadRequest structure of internal/downloader/downloader.go. -/
structure DownloadRequest where
  Owner : String
  Repo : String
  Path : String
  Ref : String
  Target : String
deriving DecidableEq, Repr

/-- The ref-defaulting step at the top of `ZipDownloader.Download`
(downloader.go lines 241-244): an empty ref becomes "main". -/
def downloadRef (req : DownloadRequest) : String :=
  if req.Ref = "" then "main" else req.Ref

/-- The zip archive URL built by `ZipDownloader.Download`
(downloader.go line 247). -/
def downloadZipURL (req : DownloadRequest) : String :=
  "https://github.com/" ++ req.Owner ++ "/" ++ req.Repo ++ "/archive/" ++ downloadRef req ++ ".zip"

/-- The error sentinels of the zip downloader; every failure of
`downloadZip` wraps `ErrZipDownloadFailed`. -/
inductive Sentinel where
  | zipDownloadFailed
deriving DecidableEq, Repr

/-- A Go error value as produced by `fmt.Errorf` with a `%w` verb: the
wrapped sentinel (what `errors.Is` compares against) plus the full
formatted message. -/
structure GoError where
  sentinel : Sentinel
  msg : String
deriving DecidableEq, Repr

/-- Message of the sentinel `ErrZipDownloadFailed`. -/
def errZipDownloadFailedMsg : String := "failed to download zip archive"

/-- Message of the error returned by `downloadZip` for HTTP 404. -/
def notFoundMsg : String :=
  errZipDownloadFailedMsg ++ ": repository or reference not found (404)"

/-- Message of the error returned by `downloadZip` for a non-200,
non-404 status. -/
def unexpectedMsg (statusCode : Nat) : String :=
  errZipDownloadFailedMsg ++ ": unexpected status code " ++ toString statusCode

/-- The HTTP status handling of `downloadZip` (downloader.go lines 289-295):
404 yields the repository-or-reference-not-found error, any other non-200
status yields the unexpected-status-code error, 200 proceeds. -/
def downloadZipStatusCheck (statusCode : Nat) : Except GoError Unit :=
  if statusCode = 404 then .error ⟨.zipDownloadFailed, notFoundMsg⟩
  else if statusCode ≠ 200 then .error ⟨.zipDownloadFailed, unexpectedMsg statusCode⟩
  else .ok ()

/-- The sentinel wrapped by the error of a `downloadZip` status outcome,
if any: this is what Go code can observe through `errors.Is`. -/
def statusErrSentinel (r : Except GoError Unit) : Option Sentinel :=
  match r with
  | .error e => some e.sentinel
  | .ok _ => none

/-! ### Unix filepath model (Go path/filepath with separator code 47) -/

/-- The segment-stack cleaning loop at the heart of `filepath.Clean`:
drop empty and dot segments, let a dotdot segment cancel a preceding
ordinary segment, drop a dotdot at the root, and keep leading dotdots of a
relative path. `acc` is the stack of kept segments, most recent first. -/
def cleanSegs (rooted : Bool) : List (List Char) → List (List Char) → List (List Char)
  | acc, [] => acc.reverse
  | acc, s :: rest =>
    if s = [] ∨ s = ['.'] then cleanSegs rooted acc rest
    else if s = ['.', '.'] then
      match acc with
      | [] =>
        if rooted then cleanSegs rooted [] rest
        else cleanSegs rooted [['.', '.']] rest
      | t :: acc2 =>
        if t = ['.', '.'] then cleanSegs rooted (s :: t :: acc2) rest
        else cleanSegs rooted acc2 rest
    else cleanSegs rooted (s :: acc) rest

/-- Split a character list on every occurrence of `c` (Go
`strings.Split`), with explicit fuel; `s.length` splits always suffice. -/
def splitAllCharFuel (c : Char) : Nat → List Char → List (List Char)
  | 0, s => [s]
  | n + 1, s =>
    match splitOnceChar c s with
    | none => [s]
    | some (a, b) => a :: splitAllCharFuel c n b

/-- Split a character list on every occurrence of `c`. -/
def splitAllChar (c : Char) (s : List Char) : List (List Char) :=
  splitAllCharFuel c s.length s

/-- Model of Go `filepath.Clean` on a Unix system: shortest lexical
equivalent of the path (collapse separators, drop dot segments, resolve
dotdot segments lexically, keep rootedness; the empty path cleans to a
dot). -/
def cleanPath (p : String) : String :=
  match p.data with
  | [] => "."
  | c :: cs =>
    let rooted := c = '/'
    let out := cleanSegs rooted [] (splitAllChar '/' (c :: cs))
    let joined := List.intercalate ['/'] out
    if rooted then ⟨'/' :: joined⟩
    else if joined = [] then "." else ⟨joined⟩

/-- Model of Go `filepath.Join` for two elements on a Unix system: empty
elements are ignored, the joined result is cleaned, and the result is
empty when both elements are empty. -/
def joinPath (a b : String) : String :=
  if a = "" ∧ b = "" then ""
  else if a = "" then cleanPath b
  else if b = "" then cleanPath a
  else cleanPath (a ++ "/" ++ b)

/-- Model of Go `filepath.Base` on a Unix system: last element of the path
after dropping trailing separators; a dot for the empty path, a single
separator for an all-separator path. -/
def basename (p : String) : String :=
  if p.data = [] then "."
  else
    let q := (p.data.reverse.dropWhile (fun c => c == '/')).reverse
    if q = [] then "/"
    else ⟨(q.reverse.takeWhile (fun c => !(c == '/'))).reverse⟩

/-- Model of Go `filepath.Dir` on a Unix system: everything up to and
including the final separator, cleaned; a dot when there is no separator. -/
def dirPath (p : String) : String :=
  cleanPath ⟨(p.data.reverse.dropWhile (fun c => !(c == '/'))).reverse⟩

example : cleanPath "a/b/../../../c" = "../c" := by decide
example : cleanPath "/../a//b/./c/" = "/a/b/c" := by decide
example : cleanPath "" = "." := by decide
example : joinPath "t" "../x" = "x" := by decide
example : basename "repo-main/file.txt" = "file.txt" := by decide
example : basename "///" = "/" := by decide
example : dirPath "t/a.txt" = "t" := by decide
example : dirPath "a" = "." := by decide

/-! ### Filesystem model -/

/-- A node materialized on disk: a directory or a file with its byte
content. -/
inductive FSNode where
  | dir
  | file : List Nat → FSNode
deriving DecidableEq, Repr

/-- The filesystem: an association list from paths to nodes.  Updating an
existing path keeps its position; a new path is appended at the end. -/
abbrev FS := List (String × FSNode)

/-- Write a node at a path, replacing any node previously there. -/
def fsSet : FS → String → FSNode → FS
  | [], p, n => [(p, n)]
  | (q, m) :: rest, p, n =>
    if q = p then (p, n) :: rest else (q, m) :: fsSet rest p n

/-- Read the node at a path. -/
def fsGet : FS → String → Option FSNode
  | [], _ => none
  | (q, m) :: rest, p => if q = p then some m else fsGet rest p

/-- Model of `os.MkdirAll` with explicit fuel: mark the path and its
ancestors as directories, stopping at the current or root directory. -/
def mkdirAllFuel : Nat → String → FS → FS
  | 0, _, fs => fs
  | fuel + 1, p, fs =>
    if p = "." ∨ p = "/" ∨ p = "" then fs
    else fsSet (mkdirAllFuel fuel (dirPath p) fs) p .dir

/-- Model of `os.MkdirAll`: create the directory and every missing
ancestor.  I/O failures are not modelled. -/
def mkdirAll (p : String) (fs : FS) : FS :=
  mkdirAllFuel p.data.length p fs

/-! ### Zip extraction engine (downloader.go lines 322-466) -/

/-- An archive entry: its stored name, whether its file info marks it as a
directory, and its byte content. -/
structure ZipEntry where
  name : String
  isDir : Bool
  content : List Nat
deriving DecidableEq, Repr

/-- The extraction-time errors of downloader.go: `ErrInvalidZipPath`
wrapping a `getRelativePath` failure, `ErrInvalidZipPath` wrapping a
path-traversal rejection (carrying the offending entry name), and
`ErrPathNotFoundInZip` (carrying the source path). -/
inductive ExtractErr where
  | invalidZipPathRel : String → String → ExtractErr
  | pathTraversalAttempt : String → ExtractErr
  | pathNotFoundInZip : String → ExtractErr
deriving DecidableEq, Repr

/-- `pathMatches` from downloader.go (lines 400-417): the entry path is the
source path itself or lies under it.  `filepath.ToSlash` is the identity on
a Unix system and is therefore omitted. -/
def pathMatches (zipPath sourcePath : String) : Bool :=
  zipPath == sourcePath || hasPrefixStr zipPath (sourcePath ++ "/")

/-- `getRelativePath` from downloader.go (lines 419-436). -/
def getRelativePath (zipPath sourcePath : String) : Except ExtractErr String :=
  if zipPath == sourcePath then .ok ""
  else if hasPrefixStr zipPath (sourcePath ++ "/") then
    .ok (trimPrefixStr zipPath (sourcePath ++ "/"))
  else .error (.invalidZipPathRel zipPath sourcePath)

/-- The destination path computed for a matching entry in `extractPath`
(downloader.go lines 359-366): the base name of the entry under the target
for an exact single-file match, otherwise the relative path under the
target. -/
def targetFilePathFor (targetPath relPath entryName : String) : String :=
  if relPath = "" then joinPath targetPath (basename entryName)
  else joinPath targetPath relPath

/-- The zip-slip containment check of `extractPath` (downloader.go lines
368-374): after cleaning, the destination must be the target directory
itself or start with the target directory followed by the separator. -/
def containmentOK (targetPath targetFilePath : String) : Bool :=
  hasPrefixStr (cleanPath targetFilePath) (cleanPath targetPath ++ "/")
    || cleanPath targetFilePath == cleanPath targetPath

/-- `extractFile` from downloader.go (lines 438-466): create the parent
directory, then write the entry content to a newly created or truncated
file.  I/O failures are not modelled. -/
def extractFile (e : ZipEntry) (targetPath : String) (fs : FS) : FS :=
  fsSet (mkdirAll (dirPath targetPath) fs) targetPath (.file e.content)

/-- The loop body of `extractPath` (downloader.go lines 340-387) for one
archive entry.  The accumulator carries the filesystem, the `found` flag
and the extracted-file counter. -/
def processEntry (sourcePath targetPath : String) :
    FS × Bool × Nat → ZipEntry → Except ExtractErr (FS × Bool × Nat)
  | (fs, found, count), e =>
    if ¬ pathMatches e.name sourcePath then .ok (fs, found, count)
    else
      match getRelativePath e.name sourcePath with
      | .error err => .error err
      | .ok relPath =>
        if relPath = "" ∧ e.isDir then .ok (fs, true, count)
        else
          let targetFilePath := targetFilePathFor targetPath relPath e.name
          if ¬ containmentOK targetPath targetFilePath then
            .error (.pathTraversalAttempt e.name)
          else if e.isDir then .ok (mkdirAll targetFilePath fs, true, count)
          else .ok (extractFile e targetFilePath fs, true, count + 1)

/-- The entry loop of `extractPath`: process the entries in order,
stopping at the first error. -/
def extractLoop (sourcePath targetPath : String) :
    List ZipEntry → FS × Bool × Nat → Except ExtractErr (FS × Bool × Nat)
  | [], acc => .ok acc
  | e :: rest, acc =>
    match processEntry sourcePath targetPath acc e with
    | .error err => .error err
    | .ok acc2 => extractLoop sourcePath targetPath rest acc2

/-- `extractPath` from downloader.go (lines 322-398): ensure the target
directory exists, process every entry, and fail with
`ErrPathNotFoundInZip` when no entry matched the source path.  The archive
is modelled by its entry list; the final filesystem is returned. -/
def extractPath (entries : List ZipEntry) (sourcePath targetPath : String) (fs : FS) :
    Except ExtractErr FS :=
  match extractLoop sourcePath targetPath entries (mkdirAll targetPath fs, false, 0) with
  | .error err => .error err
  | .ok (fs2, found, _count) =>
    if found then .ok fs2 else .error (.pathNotFoundInZip sourcePath)

example :
    extractPath [⟨"r/a.txt", false, [1]⟩] "r" "t" [] =
      .ok [("t", .dir), ("t/a.txt", .file [1])] := by decide

example :
    extractPath [⟨"r/../x", false, [1]⟩] "r" "t" [] =
      .error (.pathTraversalAttempt "r/../x") := by decide

example :
    extractPath [⟨"other", true, []⟩] "r" "t" [] =
      .error (.pathNotFoundInZip "r") := by decide

example :
    extractPath [⟨"r", true, []⟩] "r" "t" [] = .ok [("t", .dir)] := by decide

/-! ### Lemmas about the splitting helpers -/

theorem splitOnceChar_eq_none {c : Char} {s : List Char} (h : c ∉ s) :
    splitOnceChar c s = none := by
  induction s with
  | nil => rfl
  | cons x xs ih =>
    rw [List.mem_cons, not_or] at h
    have hx : ¬ x = c := fun hh => h.1 hh.symm
    simp [splitOnceChar, hx, ih h.2]

theorem not_mem_of_splitOnceChar_none {c : Char} {s : List Char}
    (h : splitOnceChar c s = none) : c ∉ s := by
  induction s with
  | nil => simp
  | cons x xs ih =>
    by_cases hx : x = c
    · simp [splitOnceChar, hx] at h
    · intro hm
      rcases List.mem_cons.mp hm with h1 | h2
      · exact hx h1.symm
      · have hn : splitOnceChar c xs = none := by
          simp only [splitOnceChar, if_neg hx] at h
          cases he : splitOnceChar c xs with
          | none => rfl
          | some v =>
            obtain ⟨a, b⟩ := v
            rw [he] at h
            simp at h
        exact ih hn h2

theorem splitOnceChar_append {c : Char} {a : List Char} (b : List Char) (h : c ∉ a) :
    splitOnceChar c (a ++ c :: b) = some (a, b) := by
  induction a with
  | nil => simp [splitOnceChar]
  | cons x xs ih =>
    rw [List.mem_cons, not_or] at h
    have hx : ¬ x = c := fun hh => h.1 hh.symm
    simp [splitOnceChar, hx, ih h.2]

theorem splitOnceChar_some {c : Char} {s a b : List Char}
    (h : splitOnceChar c s = some (a, b)) : c ∉ a ∧ s = a ++ c :: b := by
  induction s generalizing a b with
  | nil => exact Option.noConfusion h
  | cons x xs ih =>
    by_cases hx : x = c
    · simp only [splitOnceChar, if_pos hx] at h
      have hinj := Option.some.inj h
      have ha : ([] : List Char) = a := congrArg Prod.fst hinj
      have hb : xs = b := congrArg Prod.snd hinj
      rw [← ha, ← hb]
      exact ⟨List.not_mem_nil c, by rw [hx]; rfl⟩
    · simp only [splitOnceChar, if_neg hx] at h
      cases he : splitOnceChar c xs with
      | none => rw [he] at h; exact Option.noConfusion h
      | some v =>
        obtain ⟨a2, b2⟩ := v
        rw [he] at h
        have hinj := Option.some.inj h
        have ha : x :: a2 = a := congrArg Prod.fst hinj
        have hb : b2 = b := congrArg Prod.snd hinj
        obtain ⟨hca, hxs⟩ := ih he
        rw [← ha, ← hb]
        constructor
        · intro hm
          rcases List.mem_cons.mp hm with h1 | h2
          · exact hx h1.symm
          · exact hca h2
        · rw [hxs]
          rfl

/-! ### Claim C2: pathMatches is prefix-on-path-segment matching -/

/-- C2: for all slash-normalized entry paths and selection prefixes,
`pathMatches` returns true exactly when the entry path equals the prefix or
starts with the prefix followed by the separator; in particular a prefix
ending in "src" does not match "source-file.txt", so matching is
prefix-on-path-segment, not substring. -/
theorem pathMatches_prefix_on_segment :
    (∀ entryPath selectionPrefix : String,
      pathMatches entryPath selectionPrefix = true ↔
        (entryPath = selectionPrefix ∨
          (selectionPrefix ++ "/").data <+: entryPath.data))
    ∧ pathMatches "repo-main/source-file.txt" "repo-main/src" = false := by
  constructor
  · intro e p
    simp [pathMatches, hasPrefixStr, List.isPrefixOf_iff_prefix]
  · decide

/-! ### Claim C4: parse failures for bad scheme and single-token remainder -/

/-- C4 counterexample: an input whose remainder has only one token fails
with `ErrInvalidURL` (the malformed-locator error), not with
`ErrMissingRepo` as the claim states. -/
theorem parse_single_token_not_missingRepo :
    ParseGitHubURLWithRef "github:onlyowner" ≠ .error .missingRepo := by decide

/-- C4 (amended): an input without the "github:" scheme fails with the
malformed-locator error `ErrInvalidURL`, and an input whose remainder has
only one token also fails with `ErrInvalidURL` — the fewer-than-two-tokens
check runs before the empty-repo check, so `ErrMissingRepo` is reserved
for inputs like "github:owner/" with an empty second token. -/
theorem parse_error_cases :
    ParseGitHubURLWithRef "bad-scheme:x/y" = .error .invalidURL
    ∧ ParseGitHubURLWithRef "github:onlyowner" = .error .invalidURL
    ∧ ParseGitHubURLWithRef "github:owner/" = .error .missingRepo := by decide

/-! ### Claim C7: default ref and archive URL -/

/-- C7: a download request with an empty ref uses ref "main", the derived
archive URL is https://github.com/{owner}/{repo}/archive/{ref}.zip with
that ref, and the URL therefore ends in "/main.zip". -/
theorem download_default_ref_url (req : DownloadRequest) (h : req.Ref = "") :
    downloadRef req = "main"
    ∧ downloadZipURL req =
        "https://github.com/" ++ req.Owner ++ "/" ++ req.Repo ++ "/archive/" ++ "main" ++ ".zip"
    ∧ ∃ s : String, downloadZipURL req = s ++ "/main.zip" := by
  have h1 : downloadRef req = "main" := by simp [downloadRef, h]
  have h2 : downloadZipURL req =
      "https://github.com/" ++ req.Owner ++ "/" ++ req.Repo ++ "/archive/" ++ "main" ++ ".zip" := by
    rw [downloadZipURL, h1]
  refine ⟨h1, h2, ⟨"https://github.com/" ++ req.Owner ++ "/" ++ req.Repo ++ "/archive", ?_⟩⟩
  rw [h2]
  rw [String.append_assoc ("https://github.com/" ++ req.Owner ++ "/" ++ req.Repo) "/archive/" "main"]
  rw [String.append_assoc ("https://github.com/" ++ req.Owner ++ "/" ++ req.Repo)
    ("/archive/" ++ "main") ".zip"]
  rw [String.append_assoc ("https://github.com/" ++ req.Owner ++ "/" ++ req.Repo)
    "/archive" "/main.zip"]
  have key : ("/archive/" ++ "main") ++ ".zip" = "/archive" ++ ("/main.zip" : String) := by decide
  rw [key]

/-- Witness for C7 at a concrete request. -/
theorem download_default_ref_url_witness :
    downloadRef ⟨"o", "rp", "", "", "t"⟩ = "main"
    ∧ downloadZipURL ⟨"o", "rp", "", "", "t"⟩ =
        "https://github.com/" ++ "o" ++ "/" ++ "rp" ++ "/archive/" ++ "main" ++ ".zip"
    ∧ ∃ s : String, downloadZipURL ⟨"o", "rp", "", "", "t"⟩ = s ++ "/main.zip" :=
  download_default_ref_url ⟨"o", "rp", "", "", "t"⟩ rfl

/-! ### Claim C8: status-code error mapping -/

/-- C8 counterexample: the 404 error and the error for another non-200
status (500) wrap the same sentinel `ErrZipDownloadFailed`, so the two are
not distinguishable as error kinds — only their messages differ. -/
theorem status_kind_not_distinguishable :
    statusErrSentinel (downloadZipStatusCheck 404) = some .zipDownloadFailed
    ∧ statusErrSentinel (downloadZipStatusCheck 500) = some .zipDownloadFailed
    ∧ statusErrSentinel (downloadZipStatusCheck 404) =
        statusErrSentinel (downloadZipStatusCheck 500) := by decide

/-- C8 (amended): archive acquisition maps HTTP 404 to the
repository-or-reference-not-found error and any other non-200 status to an
unexpected-status error carrying the status code; both wrap the same
`ErrZipDownloadFailed` sentinel, so they are distinguishable by message
text, not as error kinds. -/
theorem download_status_mapping (s : Nat) (h4 : s ≠ 404) (h2 : s ≠ 200) :
    downloadZipStatusCheck 404 = .error ⟨.zipDownloadFailed, notFoundMsg⟩
    ∧ downloadZipStatusCheck s = .error ⟨.zipDownloadFailed, unexpectedMsg s⟩
    ∧ statusErrSentinel (downloadZipStatusCheck s) =
        statusErrSentinel (downloadZipStatusCheck 404)
    ∧ notFoundMsg ≠ unexpectedMsg s := by
  have c1 : downloadZipStatusCheck 404 = .error ⟨.zipDownloadFailed, notFoundMsg⟩ := by decide
  have c2 : downloadZipStatusCheck s = .error ⟨.zipDownloadFailed, unexpectedMsg s⟩ := by
    simp [downloadZipStatusCheck, h4, h2]
  refine ⟨c1, c2, by rw [c1, c2]; rfl, ?_⟩
  intro hmsg
  have hd := congrArg String.data hmsg
  simp only [notFoundMsg, unexpectedMsg, String.data_append, List.append_assoc,
    List.append_cancel_left_eq] at hd
  simp at hd

/-! ### Lemmas about the parser on symbolic inputs -/

theorem parseCore_scheme (l : List Char) :
    parseCore ("github:".data ++ l) = parseRest l := by
  unfold parseCore
  rw [if_pos (by simp [List.isPrefixOf_iff_prefix])]
  rw [List.drop_left]

theorem splitNChar_three (c : Char) (s : List Char) :
    splitNChar c 3 s =
      match splitOnceChar c s with
      | none => [s]
      | some (a, b) =>
        a ::
          (match splitOnceChar c b with
           | none => [b]
           | some (a2, b2) => [a2, b2]) := rfl

theorem parseRest_formA (owner repo path ref : List Char)
    (hoa : '@' ∉ owner) (hra : '@' ∉ repo) (hpa : '@' ∉ path) (hfs : '/' ∉ ref) :
    parseRest (owner ++ '/' :: repo ++ '/' :: path ++ '@' :: ref) =
      parseOwnerRepoPath (owner ++ '/' :: repo ++ '/' :: path) ref := by
  have hshape : owner ++ '/' :: repo ++ '/' :: path ++ '@' :: ref
      = (owner ++ '/' :: repo ++ '/' :: path) ++ '@' :: ref := by simp
  have hsplit : splitOnceChar '@' (owner ++ '/' :: repo ++ '/' :: path ++ '@' :: ref)
      = some (owner ++ '/' :: repo ++ '/' :: path, ref) := by
    rw [hshape]
    apply splitOnceChar_append
    intro hmem
    have hca : ¬ ('@' : Char) = '/' := by decide
    simp [hca, hoa, hra, hpa] at hmem
  simp only [parseRest, hsplit, splitOnceChar_eq_none hfs]

theorem parseRest_formB (owner repo path ref : List Char)
    (hoa : '@' ∉ owner) (hra : '@' ∉ repo) (hfs : '/' ∉ ref) :
    parseRest (owner ++ '/' :: repo ++ '@' :: ref ++ '/' :: path) =
      parseOwnerRepoPath (owner ++ '/' :: repo ++ '/' :: path) ref := by
  have hshape : owner ++ '/' :: repo ++ '@' :: ref ++ '/' :: path
      = (owner ++ '/' :: repo) ++ '@' :: (ref ++ '/' :: path) := by simp
  have hsplit1 : splitOnceChar '@' (owner ++ '/' :: repo ++ '@' :: ref ++ '/' :: path)
      = some (owner ++ '/' :: repo, ref ++ '/' :: path) := by
    rw [hshape]
    apply splitOnceChar_append
    intro hmem
    have hca : ¬ ('@' : Char) = '/' := by decide
    simp [hca, hoa, hra] at hmem
  have hsplit2 : splitOnceChar '/' (ref ++ '/' :: path) = some (ref, path) :=
    splitOnceChar_append path hfs
  simp only [parseRest, hsplit1, hsplit2]

theorem parseOwnerRepoPath_canonical (owner repo path ref : List Char)
    (hoe : owner ≠ []) (hre : repo ≠ [])
    (hos : '/' ∉ owner) (hrs : '/' ∉ repo) :
    parseOwnerRepoPath (owner ++ '/' :: repo ++ '/' :: path) ref =
      .ok ⟨⟨owner⟩, ⟨repo⟩, ⟨path⟩, ⟨if ref = [] then "main".data else ref⟩⟩ := by
  have h1 : splitOnceChar '/' (owner ++ '/' :: (repo ++ '/' :: path))
      = some (owner, repo ++ '/' :: path) := splitOnceChar_append _ hos
  have h2 : splitOnceChar '/' (repo ++ '/' :: path) = some (repo, path) :=
    splitOnceChar_append _ hrs
  simp [parseOwnerRepoPath, splitNChar_three, h1, h2, hoe, hre]

theorem string_mk_refDefault (ref : String) :
    (⟨if ref.data = [] then "main".data else ref.data⟩ : String)
      = if ref = "" then "main" else ref := by
  by_cases h : ref = ""
  · subst h
    rfl
  · have hd : ref.data ≠ [] := fun hh => h (String.ext (hh.trans rfl))
    rw [if_neg hd, if_neg h]

/-! ### Claim C3: the two locator forms -/

/-- C3 counterexample: with owner "a", repo "b", path "p@q", ref "r" (a ref
without separators), the form owner/repo/path@ref and the form
owner/repo@ref/path both parse but produce different structures, because
the split happens at the first "@" of the input. -/
theorem parse_two_forms_counterexample :
    ParseGitHubURLWithRef "github:a/b/p@q@r" = .ok ⟨"a", "b", "p", "q@r"⟩
    ∧ ParseGitHubURLWithRef "github:a/b@r/p@q" = .ok ⟨"a", "b", "p@q", "r"⟩
    ∧ ParseGitHubURLWithRef "github:a/b/p@q@r" ≠ ParseGitHubURLWithRef "github:a/b@r/p@q" := by
  decide

/-- C3 (amended): for every non-empty owner and repo free of "@" and "/",
every non-empty path free of "@", and every ref free of "/", the locators
github:owner/repo/path@ref and github:owner/repo@ref/path both parse
successfully and produce the identical structure (with an empty ref
defaulting to "main"). -/
theorem parse_two_forms_equivalent (owner repo path ref : String)
    (hoe : owner ≠ "") (hre : repo ≠ "") (_hpe : path ≠ "")
    (hoa : '@' ∉ owner.data) (hos : '/' ∉ owner.data)
    (hra : '@' ∉ repo.data) (hrs : '/' ∉ repo.data)
    (hpa : '@' ∉ path.data) (hfs : '/' ∉ ref.data) :
    ParseGitHubURLWithRef ("github:" ++ owner ++ "/" ++ repo ++ "/" ++ path ++ "@" ++ ref)
      = .ok ⟨owner, repo, path, if ref = "" then "main" else ref⟩
    ∧ ParseGitHubURLWithRef ("github:" ++ owner ++ "/" ++ repo ++ "@" ++ ref ++ "/" ++ path)
      = .ok ⟨owner, repo, path, if ref = "" then "main" else ref⟩ := by
  have hsl : ("/" : String).data = ['/'] := rfl
  have hat : ("@" : String).data = ['@'] := rfl
  have hoe2 : owner.data ≠ [] := fun hh => hoe (String.ext (hh.trans rfl))
  have hre2 : repo.data ≠ [] := fun hh => hre (String.ext (hh.trans rfl))
  have hdataA : ("github:" ++ owner ++ "/" ++ repo ++ "/" ++ path ++ "@" ++ ref).data
      = "github:".data ++ (owner.data ++ '/' :: repo.data ++ '/' :: path.data ++ '@' :: ref.data) := by
    simp [String.data_append, hsl, hat]
  have hdataB : ("github:" ++ owner ++ "/" ++ repo ++ "@" ++ ref ++ "/" ++ path).data
      = "github:".data ++ (owner.data ++ '/' :: repo.data ++ '@' :: ref.data ++ '/' :: path.data) := by
    simp [String.data_append, hsl, hat]
  constructor
  · rw [ParseGitHubURLWithRef, hdataA, parseCore_scheme,
      parseRest_formA owner.data repo.data path.data ref.data hoa hra hpa hfs,
      parseOwnerRepoPath_canonical owner.data repo.data path.data ref.data hoe2 hre2 hos hrs,
      string_mk_refDefault]
  · rw [ParseGitHubURLWithRef, hdataB, parseCore_scheme,
      parseRest_formB owner.data repo.data path.data ref.data hoa hra hfs,
      parseOwnerRepoPath_canonical owner.data repo.data path.data ref.data hoe2 hre2 hos hrs,
      string_mk_refDefault]

/-- Witness for C3 (amended) at concrete components. -/
theorem parse_two_forms_equivalent_witness :
    ParseGitHubURLWithRef "github:a/b/p@r" = .ok ⟨"a", "b", "p", if "r" = "" then "main" else "r"⟩
    ∧ ParseGitHubURLWithRef "github:a/b@r/p" = .ok ⟨"a", "b", "p", if "r" = "" then "main" else "r"⟩ :=
  parse_two_forms_equivalent "a" "b" "p" "r" (by decide) (by decide) (by decide)
    (by decide) (by decide) (by decide) (by decide) (by decide) (by decide)

/-! ### Claim C10: invariants of successfully parsed locators -/

theorem parseRest_shape (urlPart : List Char) :
    ∃ orp rp, parseRest urlPart = parseOwnerRepoPath orp rp ∧ '/' ∉ rp := by
  unfold parseRest
  cases h1 : splitOnceChar '@' urlPart with
  | none => exact ⟨urlPart, "main".data, by simp [h1], by decide⟩
  | some v =>
    obtain ⟨orp0, rp0⟩ := v
    cases h2 : splitOnceChar '/' rp0 with
    | none => exact ⟨orp0, rp0, by simp [h1, h2], not_mem_of_splitOnceChar_none h2⟩
    | some w =>
      obtain ⟨r, pw⟩ := w
      exact ⟨orp0 ++ '/' :: pw, r, by simp [h1, h2], (splitOnceChar_some h2).1⟩

theorem string_mk_ne_empty {a : List Char} (h : a ≠ []) : (⟨a⟩ : String) ≠ "" :=
  fun hh => h (congrArg String.data hh)

theorem parseOwnerRepoPath_one (orp s rp : List Char)
    (hparts : splitNChar '/' 3 orp = [s]) :
    parseOwnerRepoPath orp rp = .error .invalidURL := by
  unfold parseOwnerRepoPath
  rw [hparts]
  rfl

theorem parseOwnerRepoPath_two (orp a b rp : List Char)
    (hparts : splitNChar '/' 3 orp = [a, b]) :
    parseOwnerRepoPath orp rp =
      if a = [] then .error .missingOwner
      else if b = [] then .error .missingRepo
      else .ok ⟨⟨a⟩, ⟨b⟩, ⟨[]⟩, ⟨if rp = [] then "main".data else rp⟩⟩ := by
  unfold parseOwnerRepoPath
  rw [hparts]
  rfl

theorem parseOwnerRepoPath_three (orp a b c rp : List Char)
    (hparts : splitNChar '/' 3 orp = [a, b, c]) :
    parseOwnerRepoPath orp rp =
      if a = [] then .error .missingOwner
      else if b = [] then .error .missingRepo
      else .ok ⟨⟨a⟩, ⟨b⟩, ⟨c⟩, ⟨if rp = [] then "main".data else rp⟩⟩ := by
  unfold parseOwnerRepoPath
  rw [hparts]
  rfl

theorem parseOwnerRepoPath_ok_inv (orp rp : List Char) (p : ParsedURL)
    (hrp : '/' ∉ rp) (h : parseOwnerRepoPath orp rp = .ok p) :
    p.owner ≠ "" ∧ '/' ∉ p.owner.data
    ∧ p.repo ≠ "" ∧ '/' ∉ p.repo.data
    ∧ p.ref ≠ "" ∧ '/' ∉ p.ref.data := by
  have hrefne : (if rp = [] then "main".data else rp) ≠ [] := by
    by_cases hq : rp = []
    · simp [hq]
    · simp [hq]
  have hrefns : '/' ∉ (if rp = [] then "main".data else rp) := by
    by_cases hq : rp = []
    · simp [hq]
    · simp [hq]
      exact hrp
  cases h1 : splitOnceChar '/' orp with
  | none =>
    have hparts : splitNChar '/' 3 orp = [orp] := by
      rw [splitNChar_three, h1]
    rw [parseOwnerRepoPath_one orp orp rp hparts] at h
    exact Except.noConfusion h
  | some v =>
    obtain ⟨a, b⟩ := v
    have ha : '/' ∉ a := (splitOnceChar_some h1).1
    cases h2 : splitOnceChar '/' b with
    | none =>
      have hb : '/' ∉ b := not_mem_of_splitOnceChar_none h2
      have hparts : splitNChar '/' 3 orp = [a, b] := by
        rw [splitNChar_three, h1]
        simp [h2]
      rw [parseOwnerRepoPath_two orp a b rp hparts] at h
      split at h
      · exact Except.noConfusion h
      · split at h
        · exact Except.noConfusion h
        · rename_i hane hbne
          have hp := Except.ok.inj h
          rw [← hp]
          exact ⟨string_mk_ne_empty hane, ha,
            string_mk_ne_empty hbne, hb,
            string_mk_ne_empty hrefne, hrefns⟩
    | some w =>
      obtain ⟨c, d⟩ := w
      have hc : '/' ∉ c := (splitOnceChar_some h2).1
      have hparts : splitNChar '/' 3 orp = [a, c, d] := by
        rw [splitNChar_three, h1]
        simp [h2]
      rw [parseOwnerRepoPath_three orp a c d rp hparts] at h
      split at h
      · exact Except.noConfusion h
      · split at h
        · exact Except.noConfusion h
        · rename_i hane hcne
          have hp := Except.ok.inj h
          rw [← hp]
          exact ⟨string_mk_ne_empty hane, ha,
            string_mk_ne_empty hcne, hc,
            string_mk_ne_empty hrefne, hrefns⟩

/-- C10: every successfully parsed locator has a non-empty owner, repo and
ref, none of which contains a separator — even when the input carried the
path after the "@ref" segment. -/
theorem parse_success_invariants (url : String) (p : ParsedURL)
    (h : ParseGitHubURLWithRef url = .ok p) :
    p.owner ≠ "" ∧ '/' ∉ p.owner.data
    ∧ p.repo ≠ "" ∧ '/' ∉ p.repo.data
    ∧ p.ref ≠ "" ∧ '/' ∉ p.ref.data := by
  unfold ParseGitHubURLWithRef parseCore at h
  split at h
  · obtain ⟨orp, rp, heq, hrp⟩ := parseRest_shape (url.data.drop "github:".data.length)
    rw [heq] at h
    exact parseOwnerRepoPath_ok_inv orp rp p hrp h
  · exact Except.noConfusion h

/-- Witness for C10 at a concrete locator with the path after the ref. -/
theorem parse_success_invariants_witness :
    ("a" : String) ≠ "" ∧ '/' ∉ ("a" : String).data
    ∧ ("b" : String) ≠ "" ∧ '/' ∉ ("b" : String).data
    ∧ ("r" : String) ≠ "" ∧ '/' ∉ ("r" : String).data :=
  parse_success_invariants "github:a/b@r/x" ⟨"a", "b", "x", "r"⟩ (by decide)

/-! ### Lemmas about the extraction loop -/

theorem getRelativePath_ok_of_matches {z s : String} (h : pathMatches z s = true) :
    ∃ r, getRelativePath z s = .ok r := by
  simp only [pathMatches, Bool.or_eq_true] at h
  unfold getRelativePath
  by_cases hz : (z == s) = true
  · rw [if_pos hz]
    exact ⟨"", rfl⟩
  · rcases h with h | h
    · exact absurd h hz
    · rw [if_neg hz, if_pos h]
      exact ⟨_, rfl⟩

theorem processEntry_error_traversal (sp tp : String) (acc : FS × Bool × Nat) (e : ZipEntry)
    (err : ExtractErr) (h : processEntry sp tp acc e = .error err) :
    err = .pathTraversalAttempt e.name := by
  obtain ⟨fs, found, count⟩ := acc
  by_cases hm : pathMatches e.name sp = true
  · obtain ⟨r, hr⟩ := getRelativePath_ok_of_matches hm
    simp only [processEntry] at h
    rw [if_neg (not_not_intro hm)] at h
    simp only [hr] at h
    split at h
    · exact Except.noConfusion h
    · split at h
      · exact (Except.error.inj h).symm
      · split at h
        · exact Except.noConfusion h
        · exact Except.noConfusion h
  · simp only [processEntry] at h
    rw [if_pos hm] at h
    exact Except.noConfusion h

theorem processEntry_ok_found (sp tp : String) (fs : FS) (found : Bool) (count : Nat)
    (e : ZipEntry) (fs2 : FS) (found2 : Bool) (count2 : Nat)
    (h : processEntry sp tp (fs, found, count) e = .ok (fs2, found2, count2)) :
    found2 = (found || pathMatches e.name sp) := by
  by_cases hm : pathMatches e.name sp = true
  · obtain ⟨r, hr⟩ := getRelativePath_ok_of_matches hm
    rw [hm, Bool.or_true]
    simp only [processEntry] at h
    rw [if_neg (not_not_intro hm)] at h
    simp only [hr] at h
    split at h
    · exact (congrArg (fun t => t.2.1) (Except.ok.inj h)).symm
    · split at h
      · exact Except.noConfusion h
      · split at h
        · exact (congrArg (fun t => t.2.1) (Except.ok.inj h)).symm
        · exact (congrArg (fun t => t.2.1) (Except.ok.inj h)).symm
  · have hm2 : pathMatches e.name sp = false := by
      revert hm
      cases pathMatches e.name sp <;> simp
    rw [hm2, Bool.or_false]
    simp only [processEntry] at h
    rw [if_pos hm] at h
    exact (congrArg (fun t => t.2.1) (Except.ok.inj h)).symm

theorem extractLoop_error_traversal (sp tp : String) (entries : List ZipEntry) :
    ∀ (acc : FS × Bool × Nat) (err : ExtractErr),
      extractLoop sp tp entries acc = .error err →
      ∃ nm, err = .pathTraversalAttempt nm := by
  induction entries with
  | nil =>
    intro acc err h
    exact Except.noConfusion h
  | cons e rest ih =>
    intro acc err h
    simp only [extractLoop] at h
    cases hp : processEntry sp tp acc e with
    | error err2 =>
      rw [hp] at h
      have he2 : err2 = err := Except.error.inj h
      exact ⟨e.name, he2 ▸ processEntry_error_traversal sp tp acc e err2 hp⟩
    | ok acc2 =>
      rw [hp] at h
      exact ih acc2 err h

theorem extractLoop_error_of_entry (sp tp : String) (e : ZipEntry)
    (hstep : ∀ acc, processEntry sp tp acc e = .error (.pathTraversalAttempt e.name)) :
    ∀ (pre post : List ZipEntry) (acc : FS × Bool × Nat),
      ∃ nm, extractLoop sp tp (pre ++ e :: post) acc = .error (.pathTraversalAttempt nm) := by
  intro pre
  induction pre with
  | nil =>
    intro post acc
    refine ⟨e.name, ?_⟩
    simp only [List.nil_append, extractLoop, hstep acc]
  | cons p pre2 ih =>
    intro post acc
    rw [List.cons_append]
    simp only [extractLoop]
    cases hp : processEntry sp tp acc p with
    | error err2 =>
      obtain ⟨nm, hnm⟩ : ∃ nm, err2 = ExtractErr.pathTraversalAttempt nm :=
        ⟨p.name, processEntry_error_traversal sp tp acc p err2 hp⟩
      exact ⟨nm, by rw [hnm]⟩
    | ok acc2 =>
      exact ih post acc2

theorem extractLoop_skip (sp tp : String) (entries : List ZipEntry) :
    ∀ acc : FS × Bool × Nat,
      (∀ e ∈ entries, pathMatches e.name sp = false) →
      extractLoop sp tp entries acc = .ok acc := by
  induction entries with
  | nil => intro acc _; rfl
  | cons e rest ih =>
    intro acc h
    obtain ⟨fs, found, count⟩ := acc
    have he := h e (List.mem_cons_self e rest)
    have hp : processEntry sp tp (fs, found, count) e = .ok (fs, found, count) := by
      simp only [processEntry]
      rw [if_pos (by simp [he])]
    simp only [extractLoop, hp]
    exact ih (fs, found, count) (fun e2 he2 => h e2 (List.mem_cons_of_mem e he2))

theorem extractLoop_found (sp tp : String) (entries : List ZipEntry) :
    ∀ (fs : FS) (found : Bool) (count : Nat) (fs2 : FS) (found2 : Bool) (count2 : Nat),
      extractLoop sp tp entries (fs, found, count) = .ok (fs2, found2, count2) →
      (found = true ∨ ∃ e ∈ entries, pathMatches e.name sp = true) →
      found2 = true := by
  induction entries with
  | nil =>
    intro fs found count fs2 found2 count2 h hc
    have hinj := Except.ok.inj h
    have hf : found = found2 := congrArg (fun t => t.2.1) hinj
    rcases hc with hc | ⟨e2, he2, _⟩
    · exact hf ▸ hc
    · exact absurd he2 (List.not_mem_nil e2)
  | cons e rest ih =>
    intro fs found count fs2 found2 count2 h hc
    simp only [extractLoop] at h
    cases hp : processEntry sp tp (fs, found, count) e with
    | error err =>
      rw [hp] at h
      exact Except.noConfusion h
    | ok acc2 =>
      obtain ⟨fs3, found3, count3⟩ := acc2
      rw [hp] at h
      have hf3 : found3 = (found || pathMatches e.name sp) :=
        processEntry_ok_found sp tp fs found count e fs3 found3 count3 hp
      apply ih fs3 found3 count3 fs2 found2 count2 h
      rcases hc with hc | ⟨e2, he2, hm2⟩
      · left
        rw [hf3, hc, Bool.true_or]
      · rcases List.mem_cons.mp he2 with h1 | hmem
        · left
          rw [h1] at hm2
          rw [hf3, hm2, Bool.or_true]
        · right
          exact ⟨e2, hmem, hm2⟩

/-! ### Claim C1: zip-slip containment -/

/-- C1: for an archive entry that matches the selection prefix and is not
the skipped selection-root directory, if the computed destination fails the
containment check (after cleaning it is neither the target directory nor
prefixed by the target directory plus separator), then processing that
entry yields the path-traversal error — so nothing is materialized for it —
and any extraction whose archive contains that entry fails with a
path-traversal error. -/
theorem extractPath_traversal_rejected (e : ZipEntry) (sp tp relPath : String)
    (hm : pathMatches e.name sp = true)
    (hrel : getRelativePath e.name sp = .ok relPath)
    (hns : ¬ (relPath = "" ∧ e.isDir = true))
    (hesc : containmentOK tp (targetFilePathFor tp relPath e.name) = false) :
    (∀ acc : FS × Bool × Nat,
      processEntry sp tp acc e = .error (.pathTraversalAttempt e.name))
    ∧ ∀ (pre post : List ZipEntry) (fs : FS),
        ∃ nm, extractPath (pre ++ e :: post) sp tp fs =
          .error (.pathTraversalAttempt nm) := by
  have hstep : ∀ acc : FS × Bool × Nat,
      processEntry sp tp acc e = .error (.pathTraversalAttempt e.name) := by
    intro acc
    obtain ⟨fs, found, count⟩ := acc
    simp only [processEntry]
    rw [if_neg (not_not_intro hm)]
    simp only [hrel]
    rw [if_neg hns]
    rw [if_pos (by simp [hesc])]
  refine ⟨hstep, ?_⟩
  intro pre post fs
  obtain ⟨nm, hnm⟩ := extractLoop_error_of_entry sp tp e hstep pre post
    (mkdirAll tp fs, false, 0)
  exact ⟨nm, by simp only [extractPath, hnm]⟩

/-- Witness for C1: the crafted entry name "r/../x" escapes the target
directory "t" and is rejected. -/
theorem extractPath_traversal_rejected_witness :
    processEntry "r" "t" ([], false, 0) ⟨"r/../x", false, [7]⟩ =
        .error (.pathTraversalAttempt "r/../x")
    ∧ ∃ nm, extractPath [⟨"r/../x", false, [7]⟩] "r" "t" [] =
        .error (.pathTraversalAttempt nm) := by
  have h := extractPath_traversal_rejected ⟨"r/../x", false, [7]⟩ "r" "t" "../x"
    (by decide) (by decide) (by decide) (by decide)
  exact ⟨h.1 ([], false, 0), h.2 [] [] []⟩

/-! ### Claim C5: PathNotFoundInZip exactly when nothing matches -/

/-- C5: extraction fails with the path-not-found error carrying the
selection prefix when no archive entry matches it; when at least one entry
matches, that error is never returned. -/
theorem extractPath_pathNotFound_iff (entries : List ZipEntry) (sp tp : String) (fs : FS) :
    ((∀ e ∈ entries, pathMatches e.name sp = false) →
      extractPath entries sp tp fs = .error (.pathNotFoundInZip sp))
    ∧ ((∃ e ∈ entries, pathMatches e.name sp = true) →
      ∀ s : String, extractPath entries sp tp fs ≠ .error (.pathNotFoundInZip s)) := by
  constructor
  · intro h
    unfold extractPath
    rw [extractLoop_skip sp tp entries (mkdirAll tp fs, false, 0) h]
    rfl
  · intro h s
    unfold extractPath
    cases hl : extractLoop sp tp entries (mkdirAll tp fs, false, 0) with
    | error err =>
      obtain ⟨nm, rfl⟩ := extractLoop_error_traversal sp tp entries
        (mkdirAll tp fs, false, 0) err hl
      simp
    | ok acc2 =>
      obtain ⟨fs2, found2, count2⟩ := acc2
      have hf : found2 = true :=
        extractLoop_found sp tp entries (mkdirAll tp fs) false 0 fs2 found2 count2 hl
          (Or.inr h)
      rw [hf]
      simp

/-- Witness for C5: a non-matching archive yields the path-not-found error
and a matching archive does not. -/
theorem extractPath_pathNotFound_iff_witness :
    extractPath [⟨"other", true, []⟩] "r" "t" [] = .error (.pathNotFoundInZip "r")
    ∧ extractPath [⟨"r/a.txt", false, [1]⟩] "r" "t" [] ≠ .error (.pathNotFoundInZip "r") :=
  ⟨(extractPath_pathNotFound_iff [⟨"other", true, []⟩] "r" "t" []).1 (by decide),
   (extractPath_pathNotFound_iff [⟨"r/a.txt", false, [1]⟩] "r" "t" []).2
     ⟨⟨"r/a.txt", false, [1]⟩, by decide, by decide⟩ "r"⟩

/-! ### Claim C6: per-entry skip rule and destination computation -/

/-- C6: for a matching entry, an empty relative path on a directory entry
is skipped with nothing materialized; an empty relative path on a file
entry gets destination targetDir joined with the basename of the entry
name; a non-empty relative path gets destination targetDir joined with the
relative path; and in the non-skip cases passing containment, the entry is
materialized exactly at that destination. -/
theorem extract_entry_destination (e : ZipEntry) (sp tp relPath : String)
    (fs : FS) (found : Bool) (count : Nat)
    (hm : pathMatches e.name sp = true)
    (hrel : getRelativePath e.name sp = .ok relPath) :
    (relPath = "" → e.isDir = true →
      processEntry sp tp (fs, found, count) e = .ok (fs, true, count))
    ∧ (relPath = "" → e.isDir = false →
      targetFilePathFor tp relPath e.name = joinPath tp (basename e.name))
    ∧ (relPath ≠ "" →
      targetFilePathFor tp relPath e.name = joinPath tp relPath)
    ∧ (¬ (relPath = "" ∧ e.isDir = true) →
      containmentOK tp (targetFilePathFor tp relPath e.name) = true →
      processEntry sp tp (fs, found, count) e =
        .ok ((if e.isDir then mkdirAll (targetFilePathFor tp relPath e.name) fs
              else extractFile e (targetFilePathFor tp relPath e.name) fs),
             true,
             if e.isDir then count else count + 1)) := by
  refine ⟨?_, ?_, ?_, ?_⟩
  · intro h1 h2
    simp [processEntry, hm, hrel, h1, h2]
  · intro h1 _
    simp [targetFilePathFor, h1]
  · intro h1
    simp [targetFilePathFor, h1]
  · intro hns hcont
    simp only [processEntry]
    rw [if_neg (not_not_intro hm)]
    simp only [hrel]
    rw [if_neg hns]
    rw [if_neg (not_not_intro hcont)]
    cases hd : e.isDir <;> simp [hd]

/-- Witness for C6: the three destination cases at concrete entries. -/
theorem extract_entry_destination_witness :
    processEntry "r" "t" ([], false, 0) ⟨"r", true, []⟩ = .ok ([], true, 0)
    ∧ targetFilePathFor "t" "" "r" = joinPath "t" (basename "r")
    ∧ targetFilePathFor "t" "a.txt" "r/a.txt" = joinPath "t" "a.txt" :=
  ⟨(extract_entry_destination ⟨"r", true, []⟩ "r" "t" "" [] false 0
      (by decide) (by decide)).1 rfl rfl,
   ((extract_entry_destination ⟨"r", false, [5]⟩ "r" "t" "" [] false 0
      (by decide) (by decide)).2).1 rfl rfl,
   (((extract_entry_destination ⟨"r/a.txt", false, [5]⟩ "r" "t" "a.txt" [] false 0
      (by decide) (by decide)).2).2).1 (by decide)⟩

/-! ### Claim C9: idempotence of extraction

The loop body never reads the filesystem: which branch is taken and what
is written depend only on the entry, the source path and the target path.
The lemmas below factor every run of the loop into a filesystem-independent
list of writes applied in order, from which idempotence follows because a
repeated write sequence leaves every lookup unchanged. -/

/-- Apply a list of path writes to the filesystem in order. -/
def applyWrites (ws : List (String × FSNode)) (fs : FS) : FS :=
  ws.foldl (fun f w => fsSet f w.1 w.2) fs

/-- The writes performed by `mkdirAllFuel`. -/
def mkdirWrites : Nat → String → List (String × FSNode)
  | 0, _ => []
  | fuel + 1, p =>
    if p = "." ∨ p = "/" ∨ p = "" then []
    else mkdirWrites fuel (dirPath p) ++ [(p, .dir)]

theorem applyWrites_append (ws1 ws2 : List (String × FSNode)) (fs : FS) :
    applyWrites (ws1 ++ ws2) fs = applyWrites ws2 (applyWrites ws1 fs) := by
  simp [applyWrites, List.foldl_append]

theorem mkdirAllFuel_writes (fuel : Nat) : ∀ (p : String) (fs : FS),
    mkdirAllFuel fuel p fs = applyWrites (mkdirWrites fuel p) fs := by
  induction fuel with
  | zero =>
    intro p fs
    rfl
  | succ n ih =>
    intro p fs
    by_cases hb : p = "." ∨ p = "/" ∨ p = ""
    · simp only [mkdirAllFuel, mkdirWrites]
      rw [if_pos hb, if_pos hb]
      rfl
    · simp only [mkdirAllFuel, mkdirWrites]
      rw [if_neg hb, if_neg hb]
      rw [applyWrites_append, ih]
      rfl

theorem mkdirAll_writes (p : String) (fs : FS) :
    mkdirAll p fs = applyWrites (mkdirWrites p.data.length p) fs :=
  mkdirAllFuel_writes p.data.length p fs

/-- The filesystem-independent effect of processing one entry: the writes
performed, whether the entry counts as found, and the extracted-file
increment. -/
def entryWrites (sourcePath targetPath : String) (e : ZipEntry) :
    Except ExtractErr (List (String × FSNode) × Bool × Nat) :=
  if ¬ pathMatches e.name sourcePath then .ok ([], false, 0)
  else
    match getRelativePath e.name sourcePath with
    | .error err => .error err
    | .ok relPath =>
      if relPath = "" ∧ e.isDir then .ok ([], true, 0)
      else
        let targetFilePath := targetFilePathFor targetPath relPath e.name
        if ¬ containmentOK targetPath targetFilePath then
          .error (.pathTraversalAttempt e.name)
        else if e.isDir then
          .ok (mkdirWrites targetFilePath.data.length targetFilePath, true, 0)
        else
          .ok (mkdirWrites (dirPath targetFilePath).data.length (dirPath targetFilePath)
              ++ [(targetFilePath, .file e.content)], true, 1)

theorem processEntry_writes (sp tp : String) (e : ZipEntry) (fs : FS) (found : Bool)
    (count : Nat) :
    processEntry sp tp (fs, found, count) e =
      (entryWrites sp tp e).map
        (fun w => (applyWrites w.1 fs, found || w.2.1, count + w.2.2)) := by
  by_cases hm : pathMatches e.name sp = true
  · obtain ⟨r, hr⟩ := getRelativePath_ok_of_matches hm
    simp only [processEntry, entryWrites]
    rw [if_neg (not_not_intro hm), if_neg (not_not_intro hm)]
    simp only [hr]
    by_cases hskip : r = "" ∧ e.isDir = true
    · rw [if_pos hskip, if_pos hskip]
      simp [Except.map, applyWrites]
    · rw [if_neg hskip, if_neg hskip]
      by_cases hcont : containmentOK tp (targetFilePathFor tp r e.name) = true
      · rw [if_neg (not_not_intro hcont), if_neg (not_not_intro hcont)]
        cases hd : e.isDir
        · simp [hd, Except.map, extractFile, mkdirAll_writes, applyWrites_append, applyWrites]
        · simp [hd, Except.map, mkdirAll_writes]
      · have hcont2 : ¬ containmentOK tp (targetFilePathFor tp r e.name) = true := hcont
        rw [if_pos hcont2, if_pos hcont2]
        rfl
  · simp only [processEntry, entryWrites]
    rw [if_pos hm, if_pos hm]
    simp [Except.map, applyWrites]

/-- The filesystem-independent effect of the whole loop. -/
def loopWrites (sourcePath targetPath : String) :
    List ZipEntry → Except ExtractErr (List (String × FSNode) × Bool × Nat)
  | [] => .ok ([], false, 0)
  | e :: rest =>
    match entryWrites sourcePath targetPath e with
    | .error err => .error err
    | .ok w =>
      match loopWrites sourcePath targetPath rest with
      | .error err => .error err
      | .ok w2 => .ok (w.1 ++ w2.1, w.2.1 || w2.2.1, w.2.2 + w2.2.2)

theorem extractLoop_writes (sp tp : String) (entries : List ZipEntry) :
    ∀ (fs : FS) (found : Bool) (count : Nat),
      extractLoop sp tp entries (fs, found, count) =
        (loopWrites sp tp entries).map
          (fun w => (applyWrites w.1 fs, found || w.2.1, count + w.2.2)) := by
  induction entries with
  | nil =>
    intro fs found count
    simp [extractLoop, loopWrites, Except.map, applyWrites]
  | cons e rest ih =>
    intro fs found count
    simp only [extractLoop, loopWrites]
    rw [processEntry_writes]
    cases he : entryWrites sp tp e with
    | error err =>
      simp [Except.map]
    | ok w =>
      obtain ⟨ws, m, k⟩ := w
      simp only [Except.map]
      rw [ih (applyWrites ws fs) (found || m) (count + k)]
      cases hl : loopWrites sp tp rest with
      | error err =>
        simp [Except.map]
      | ok w2 =>
        obtain ⟨ws2, m2, k2⟩ := w2
        simp [Except.map, applyWrites_append, Bool.or_assoc, Nat.add_assoc]

theorem fsGet_fsSet (q p : String) (n : FSNode) : ∀ fs : FS,
    fsGet (fsSet fs q n) p = if q = p then some n else fsGet fs p := by
  intro fs
  induction fs with
  | nil =>
    simp [fsSet, fsGet]
  | cons hd rest ih =>
    obtain ⟨a, m⟩ := hd
    simp only [fsSet]
    by_cases ha : a = q
    · rw [if_pos ha]
      by_cases hqp : q = p
      · simp [fsGet, hqp]
      · have hap : ¬ a = p := fun hh => hqp (ha ▸ hh)
        simp [fsGet, hqp, hap, ha]
    · rw [if_neg ha]
      by_cases hap : a = p
      · have hqp : ¬ q = p := fun hh => ha (hap.trans hh.symm)
        simp [fsGet, hap, hqp]
      · simp [fsGet, hap, ih]

/-- The last write recorded for a path in a write list, if any. -/
def lastWriteLookup (ws : List (String × FSNode)) (p : String) : Option FSNode :=
  ws.foldl (fun acc w => if w.1 = p then some w.2 else acc) none

theorem lastWriteLookup_init (p : String) : ∀ (ws : List (String × FSNode))
    (init : Option FSNode),
    ws.foldl (fun acc w => if w.1 = p then some w.2 else acc) init =
      match lastWriteLookup ws p with
      | some n => some n
      | none => init := by
  intro ws
  induction ws with
  | nil =>
    intro init
    rfl
  | cons w rest ih =>
    intro init
    have hl : lastWriteLookup (w :: rest) p =
        rest.foldl (fun acc x => if x.1 = p then some x.2 else acc)
          (if w.1 = p then some w.2 else none) := rfl
    rw [List.foldl_cons, ih, hl, ih]
    cases lastWriteLookup rest p with
    | some n => rfl
    | none =>
      by_cases hwp : w.1 = p
      · rw [if_pos hwp, if_pos hwp]
      · rw [if_neg hwp, if_neg hwp]

theorem applyWrites_fsGet (p : String) : ∀ (ws : List (String × FSNode)) (fs : FS),
    fsGet (applyWrites ws fs) p =
      match lastWriteLookup ws p with
      | some n => some n
      | none => fsGet fs p := by
  intro ws
  induction ws with
  | nil =>
    intro fs
    rfl
  | cons w rest ih =>
    intro fs
    have happ : applyWrites (w :: rest) fs = applyWrites rest (fsSet fs w.1 w.2) := rfl
    have hl : lastWriteLookup (w :: rest) p =
        rest.foldl (fun acc x => if x.1 = p then some x.2 else acc)
          (if w.1 = p then some w.2 else none) := rfl
    rw [happ, ih, hl, lastWriteLookup_init, fsGet_fsSet]
    cases lastWriteLookup rest p with
    | some n => rfl
    | none =>
      by_cases hwp : w.1 = p
      · rw [if_pos hwp, if_pos hwp]
      · rw [if_neg hwp, if_neg hwp]

theorem fsGet_applyWrites_twice (ws : List (String × FSNode)) (fs : FS) (p : String) :
    fsGet (applyWrites ws (applyWrites ws fs)) p = fsGet (applyWrites ws fs) p := by
  rw [applyWrites_fsGet p ws (applyWrites ws fs)]
  cases hlw : lastWriteLookup ws p with
  | some n =>
    rw [applyWrites_fsGet p ws fs, hlw]
  | none =>
    rfl

/-- C9: extraction is idempotent: after a successful run producing
filesystem `fs1`, running the same extraction again over `fs1` succeeds,
and every path holds the same node afterwards — existing files are
truncated and rewritten with identical content, never appended to or
rejected. -/
theorem extractPath_idempotent (entries : List ZipEntry) (sp tp : String) (fs fs1 : FS)
    (h : extractPath entries sp tp fs = .ok fs1) :
    ∃ fs2, extractPath entries sp tp fs1 = .ok fs2 ∧ ∀ p, fsGet fs2 p = fsGet fs1 p := by
  unfold extractPath at h ⊢
  rw [mkdirAll_writes] at h ⊢
  rw [extractLoop_writes] at h ⊢
  cases hl : loopWrites sp tp entries with
  | error err =>
    rw [hl] at h
    simp [Except.map] at h
  | ok w =>
    obtain ⟨ws, m, k⟩ := w
    rw [hl] at h
    simp only [Except.map, Bool.false_or, Nat.zero_add] at h ⊢
    by_cases hm : m = true
    · rw [if_pos hm] at h ⊢
      have hfs1 : applyWrites ws (applyWrites (mkdirWrites tp.data.length tp) fs) = fs1 :=
        Except.ok.inj h
      refine ⟨_, rfl, ?_⟩
      intro p
      rw [← hfs1]
      have hmerge : ∀ X : FS,
          applyWrites ws (applyWrites (mkdirWrites tp.data.length tp) X) =
            applyWrites (mkdirWrites tp.data.length tp ++ ws) X :=
        fun X => (applyWrites_append _ _ _).symm
      rw [hmerge, hmerge]
      exact fsGet_applyWrites_twice _ fs p
    · rw [if_neg hm] at h
      exact Except.noConfusion h

/-- Witness for C9: re-running a concrete successful extraction over its
own output filesystem. -/
theorem extractPath_idempotent_witness :
    ∃ fs2, extractPath [⟨"r/a.txt", false, [1]⟩] "r" "t"
        [("t", .dir), ("t/a.txt", .file [1])] = .ok fs2
      ∧ ∀ p, fsGet fs2 p = fsGet [("t", FSNode.dir), ("t/a.txt", FSNode.file [1])] p :=
  extractPath_idempotent [⟨"r/a.txt", false, [1]⟩] "r" "t" []
    [("t", .dir), ("t/a.txt", .file [1])] (by decide)

/-- Witness for C8 (amended) at status 500. -/
theorem download_status_mapping_witness :
    downloadZipStatusCheck 404 = .error ⟨.zipDownloadFailed, notFoundMsg⟩
    ∧ downloadZipStatusCheck 500 = .error ⟨.zipDownloadFailed, unexpectedMsg 500⟩
    ∧ statusErrSentinel (downloadZipStatusCheck 500) =
        statusErrSentinel (downloadZipStatusCheck 404)
    ∧ notFoundMsg ≠ unexpectedMsg 500 :=
  download_status_mapping 500 (by decide) (by decide)

end Xcp
